import Mathlib

/-! Verification of the trip-ingestion pipeline
(`src/zoomcamp/pipeline/assets/ingestion/trips.py`).

The development shallowly embeds the three functions of the source file:

* `_generate_month_starts`  →  `Bruin.generateMonthStarts`
* `_normalize_columns`      →  `Bruin.normalizeColumns`
* `materialize`             →  `Bruin.materialize`

Timestamps (`pd.Timestamp`) are modelled by `Bruin.DT`, a
(year, month, day, time-of-day) record ordered lexicographically;
`.normalize()` zeroes the time-of-day component.  DataFrames are modelled
column-major: a list of (name, values) columns plus a row index, which is
how every operation of the source (rename, column membership, column
insertion, projection, boolean-mask row filtering, concat) acts on them.
The fetch collaborator (`pd.read_parquet`) and the environment
(`BRUIN_START_DATE`, `BRUIN_END_DATE`, `BRUIN_VARS`) are parameters of
`materialize`: a fetch either returns a raw frame or fails, and each date
string either parses to a `DT` or fails (a pandas parse error, named `MalformedDateError` by the spec).
-/

set_option autoImplicit false

namespace Bruin

/-- A pandas timestamp: calendar date plus a time-of-day component
(`tod`, in arbitrary sub-day units; `tod = 0` is midnight). -/
structure DT where
  year : Nat
  month : Nat
  day : Nat
  tod : Nat
deriving DecidableEq, Repr

namespace DT

/-- Chronological strict order on timestamps: lexicographic on
(year, month, day, time-of-day). -/
def lt (a b : DT) : Prop :=
  a.year < b.year ∨
    (a.year = b.year ∧
      (a.month < b.month ∨
        (a.month = b.month ∧
          (a.day < b.day ∨ (a.day = b.day ∧ a.tod < b.tod)))))

/-- Chronological order on timestamps. -/
def le (a b : DT) : Prop := lt a b ∨ a = b

instance instDecidableLt (a b : DT) : Decidable (lt a b) := by
  unfold lt; exact inferInstance

instance instDecidableLe (a b : DT) : Decidable (le a b) := by
  unfold le; exact inferInstance

/-- Embeds `pd.Timestamp.normalize()`: truncate to midnight. -/
def normalize (d : DT) : DT := { d with tod := 0 }

/-- A timestamp that denotes a real calendar instant (as produced by a
successful `pd.to_datetime` parse). -/
def Valid (d : DT) : Prop :=
  1 ≤ d.month ∧ d.month ≤ 12 ∧ 1 ≤ d.day ∧ d.day ≤ 31

/-- First calendar day of a month, at midnight. -/
def IsMonthStart (d : DT) : Prop :=
  d.day = 1 ∧ d.tod = 0 ∧ 1 ≤ d.month ∧ d.month ≤ 12

instance instDecidableIsMonthStart (d : DT) : Decidable d.IsMonthStart := by
  unfold IsMonthStart; exact inferInstance

end DT

/-- The month-start of the `k`-th month counting from year 0, month 1. -/
def monthStartOfIndex (k : Nat) : DT := ⟨k / 12, k % 12 + 1, 1, 0⟩

/-- Embeds `pd.date_range(start=s, end=e, freq="MS")`: every month-start `d`
with `s ≤ d ≤ e`, ascending. -/
def dateRangeMS (s e : DT) : List DT :=
  (List.range (e.year * 12 + e.month)).filterMap (fun k =>
    let d := monthStartOfIndex k
    if s.le d ∧ d.le e then some d else none)

/-- Embeds `_generate_month_starts` (trips.py:29-37): normalize both parsed
bounds to midnight, then enumerate month starts in `[start, end]`. -/
def generateMonthStarts (s e : DT) : List DT :=
  dateRangeMS s.normalize e.normalize

/-- A cell value of a columnar table.  the `null` constructor stands for the pandas `NA`/`NaT` values. -/
inductive Val where
  | null
  | vStr (s : String)
  | vInt (n : Int)
  | ts (t : DT)
deriving DecidableEq, Repr

/-- Keep the elements of a list selected by a boolean mask
(`df.loc[mask]` applied to one column, or to the index). -/
def maskList {α : Type} : List Bool → List α → List α
  | b :: bs, x :: xs => if b then x :: maskList bs xs else maskList bs xs
  | _, _ => []

/-- A pandas DataFrame, column-major: ordered named columns plus the row
index.  Well-formed frames have every column as long as the index. -/
structure DF where
  cols : List (String × List Val)
  idx : List Nat
deriving DecidableEq, Repr

namespace DF

/-- Embeds `df.columns`. -/
def colNames (df : DF) : List String := df.cols.map Prod.fst

/-- Embeds `name in df.columns`. -/
def hasCol (df : DF) (n : String) : Bool := decide (n ∈ df.colNames)

/-- Number of rows (`len(df)`). -/
def nrows (df : DF) : Nat := df.idx.length

/-- Lookup of the first column with the given label. -/
def getColList : List (String × List Val) → String → List Val
  | [], _ => []
  | c :: cs, n => if c.1 == n then c.2 else getColList cs n

/-- Embeds `df[n]`: the values of column `n`. -/
def getCol (df : DF) (n : String) : List Val := getColList df.cols n

/-- Embeds `df[n] = vs`: overwrite column `n`, or append it if absent. -/
def setCol (df : DF) (n : String) (vs : List Val) : DF :=
  if df.hasCol n then
    { df with cols := df.cols.map (fun c => if c.1 == n then (c.1, vs) else c) }
  else
    { df with cols := df.cols ++ [(n, vs)] }

/-- Embeds `df[names]`: label-based projection.  For each requested
label, in order, pandas returns every column carrying that label, in
frame order — duplicate labels (as created by `rename`) are kept, not
collapsed.  (A requested label matching no column would raise `KeyError`
in pandas; in this program the projection always runs after the fill
loop, which guarantees every canonical label is present, so that branch
is unreachable and not modelled.) -/
def select (df : DF) (names : List String) : DF :=
  { cols := names.flatMap (fun n => df.cols.filter (fun c => c.1 == n)),
    idx := df.idx }

/-- Embeds `df.loc[mask]`: keep the rows selected by the mask. -/
def filterMask (df : DF) (mask : List Bool) : DF :=
  { cols := df.cols.map (fun c => (c.1, maskList mask c.2)),
    idx := maskList mask df.idx }

/-- Embeds `df.rename(columns=rm)` on one name: first matching rule, else
unchanged (keys absent from the frame are silently ignored). -/
def applyRenameName (rm : List (String × String)) (n : String) : String :=
  match rm.find? (fun p => p.1 == n) with
  | some p => p.2
  | none => n

/-- Embeds `df.rename(columns=rm)`. -/
def renameCols (df : DF) (rm : List (String × String)) : DF :=
  { df with cols := df.cols.map (fun c => (applyRenameName rm c.1, c.2)) }

/-- Every column is exactly as long as the index (always true of a real
pandas frame). -/
def WF (df : DF) : Prop := ∀ c ∈ df.cols, c.2.length = df.idx.length

end DF

/-- The canonical output schema, in its fixed order (trips.py:72-80). -/
def canonicalColumns : List String :=
  ["pickup_datetime", "dropoff_datetime", "pickup_location_id",
   "dropoff_location_id", "fare_amount", "payment_type", "taxi_type"]

/-- The two fatal errors of the pipeline (spec §7): `MalformedDateError`
from date parsing, `UnrecognizedSchemaError` (`ValueError` in the source)
from schema detection. -/
inductive PipeError where
  | malformedDate
  | unrecognizedSchema
deriving DecidableEq, Repr

/-- The `if/elif/elif/else` chain of `_normalize_columns`
(trips.py:46-56): pick the pickup/dropoff name pair by testing, in
priority order, whether the *pickup* column of a variant is present. -/
def detectPair (df : DF) : Option (String × String) :=
  if df.hasCol "pickup_datetime" then
    some ("pickup_datetime", "dropoff_datetime")
  else if df.hasCol "tpep_pickup_datetime" then
    some ("tpep_pickup_datetime", "tpep_dropoff_datetime")
  else if df.hasCol "lpep_pickup_datetime" then
    some ("lpep_pickup_datetime", "lpep_dropoff_datetime")
  else
    none

/-- The `rename_map` dict of `_normalize_columns` (trips.py:58-68). -/
def buildRenameMap (df : DF) (pickupCol dropoffCol : String) :
    List (String × String) :=
  [(pickupCol, "pickup_datetime"), (dropoffCol, "dropoff_datetime")]
    ++ (if df.hasCol "PULocationID" then
          [("PULocationID", "pickup_location_id")] else [])
    ++ (if df.hasCol "DOLocationID" then
          [("DOLocationID", "dropoff_location_id")] else [])

/-- One step of the `for col in required_columns` loop (trips.py:82-84):
`if col not in df.columns: df[col] = pd.NA`. -/
def fillMissing (d : DF) (n : String) : DF :=
  if d.hasCol n then d else d.setCol n (List.replicate d.nrows Val.null)

/-- The body of `_normalize_columns` after a pair was detected
(trips.py:58-92): rename, fill missing canonical columns with null,
project to the canonical order, overwrite `taxi_type`. -/
def normalizeOk (df : DF) (taxi_type pickupCol dropoffCol : String) : DF :=
  let renamed := df.renameCols (buildRenameMap df pickupCol dropoffCol)
  let filled := canonicalColumns.foldl fillMissing renamed
  let projected := filled.select canonicalColumns
  projected.setCol "taxi_type"
    (List.replicate projected.nrows (Val.vStr taxi_type))

/-- Embeds `_normalize_columns` (trips.py:40-92): `ValueError` (named
`UnrecognizedSchemaError` by the spec) when no variant is detected. -/
def normalizeColumns (df : DF) (taxi_type : String) : Except PipeError DF :=
  match detectPair df with
  | none => .error .unrecognizedSchema
  | some (p, d) => .ok (normalizeOk df taxi_type p d)

/-- The window mask for one cell (trips.py:150):
`pickup >= start_ts and pickup < end_ts`; pandas comparisons against
`NaT`/`NA`-like cells are falsy. -/
def inWindow (s e : DT) (v : Val) : Bool :=
  match v with
  | Val.ts t => decide (s.le t ∧ t.lt e)
  | _ => false

/-- Embeds trips.py:149-151: build the mask from `df["pickup_datetime"]` and
keep the selected rows. -/
def filterWindow (df : DF) (s e : DT) : DF :=
  df.filterMask ((df.getCol "pickup_datetime").map (inWindow s e))

/-- The fetch collaborator (`pd.read_parquet` at the resolved URL for a
(taxi_type, year, month) triple): a raw frame, or any failure. -/
def FetchFn : Type := String → Nat → Nat → Except Unit DF

/-- One iteration of the inner loop of `materialize` (trips.py:132-154):
fetch (any failure → skip, `.ok none`), normalize (error propagates),
filter to the window, drop the batch if empty. -/
def processPair (fetch : FetchFn) (startTs endTs : DT) (tt : String)
    (m : DT) : Except PipeError (Option DF) :=
  match fetch tt m.year m.month with
  | .error _ => .ok none
  | .ok raw =>
    match normalizeColumns raw tt with
    | .error e => .error e
    | .ok ndf =>
      if (filterWindow ndf startTs endTs).nrows = 0 then .ok none
      else .ok (some (filterWindow ndf startTs endTs))

/-- The double loop of `materialize`, flattened over the (fleet type,
month) pairs in loop order: collect the surviving batches, propagating
the first normalizer error. -/
def runPairs (fetch : FetchFn) (startTs endTs : DT) :
    List (String × DT) → Except PipeError (List DF)
  | [] => .ok []
  | p :: rest =>
    match processPair fetch startTs endTs p.1 p.2 with
    | .error e => .error e
    | .ok none => runPairs fetch startTs endTs rest
    | .ok (some d) =>
      match runPairs fetch startTs endTs rest with
      | .error e => .error e
      | .ok ds => .ok (d :: ds)

/-- The iteration order of trips.py:131-132: fleet types in
caller-supplied order (outer), month starts in planner order (inner). -/
def mkPairs (taxiTypes : List String) (months : List DT) :
    List (String × DT) :=
  taxiTypes.flatMap (fun tt => months.map (fun m => (tt, m)))

/-- Embeds `pd.DataFrame(columns=[...])` (trips.py:114-124 and 157-167): no
rows, full canonical schema. -/
def emptyCanonicalDF : DF :=
  { cols := canonicalColumns.map (fun n => (n, [])), idx := [] }

/-- Embeds `pd.concat(dataframes, ignore_index=True)` (trips.py:169) on frames
that all carry exactly the canonical schema: stack the rows columnwise
and renumber the index from zero. -/
def concatCanonical (dfs : List DF) : DF :=
  { cols := canonicalColumns.map
      (fun n => (n, dfs.flatMap (fun d => d.getCol n))),
    idx := List.range ((dfs.map DF.nrows).sum) }

/-- The environment of a run: the parse results of `BRUIN_START_DATE` and
`BRUIN_END_DATE` (`none` stands for a pandas parse error, named
`MalformedDateError` by the spec) and the fleet-type list from
`BRUIN_VARS`. -/
structure Env where
  startResult : Option DT
  endResult : Option DT
  taxiTypes : List String

/-- Embeds `materialize` (trips.py:95-171). -/
def materialize (fetch : FetchFn) (env : Env) : Except PipeError DF :=
  match env.startResult with
  | none => .error .malformedDate
  | some startParsed =>
    match env.endResult with
    | none => .error .malformedDate
    | some endParsed =>
      if (generateMonthStarts startParsed endParsed).isEmpty then
        .ok emptyCanonicalDF
      else
        match runPairs fetch startParsed endParsed
            (mkPairs env.taxiTypes
              (generateMonthStarts startParsed endParsed)) with
        | .error e => .error e
        | .ok dfs =>
          if dfs.isEmpty then .ok emptyCanonicalDF
          else .ok (concatCanonical dfs)

/-! ### Order lemmas for timestamps -/

lemma DT.lt_trans {a b c : DT} (h1 : a.lt b) (h2 : b.lt c) : a.lt c := by
  unfold DT.lt at h1 h2 ⊢; omega

lemma DT.lt_irrefl (a : DT) : ¬ a.lt a := by
  unfold DT.lt; omega

lemma DT.le_refl (a : DT) : a.le a := Or.inr rfl

lemma DT.le_trans {a b c : DT} (h1 : a.le b) (h2 : b.le c) : a.le c := by
  rcases h1 with h1 | rfl
  · rcases h2 with h2 | rfl
    · exact Or.inl (DT.lt_trans h1 h2)
    · exact Or.inl h1
  · exact h2

lemma DT.le_antisymm {a b : DT} (h1 : a.le b) (h2 : b.le a) : a = b := by
  rcases h1 with h1 | rfl
  · rcases h2 with h2 | rfl
    · exact absurd (DT.lt_trans h1 h2) (DT.lt_irrefl a)
    · rfl
  · rfl

lemma DT.not_le_of_lt {a b : DT} (h : a.lt b) : ¬ b.le a := by
  intro hle
  rcases hle with hlt | rfl
  · exact absurd (DT.lt_trans h hlt) (DT.lt_irrefl _)
  · exact absurd h (DT.lt_irrefl _)

lemma DT.ne_of_lt {a b : DT} (h : a.lt b) : a ≠ b := by
  rintro rfl; exact absurd h (DT.lt_irrefl a)

instance DT.instDecidableValid (d : DT) : Decidable d.Valid := by
  unfold DT.Valid; exact inferInstance

/-! ### Month-planner lemmas -/

lemma isMonthStart_monthStartOfIndex (k : Nat) :
    (monthStartOfIndex k).IsMonthStart :=
  ⟨rfl, rfl, by show 1 ≤ k % 12 + 1; omega, by show k % 12 + 1 ≤ 12; omega⟩

lemma monthStartOfIndex_lt_of_lt {k j : Nat} (h : k < j) :
    (monthStartOfIndex k).lt (monthStartOfIndex j) := by
  show k / 12 < j / 12 ∨ (k / 12 = j / 12 ∧ (k % 12 + 1 < j % 12 + 1 ∨ _))
  omega

lemma monthStartOfIndex_fields (y mo dd td : Nat) (h1 : dd = 1) (h2 : td = 0)
    (h3 : 1 ≤ mo) (h4 : mo ≤ 12) :
    monthStartOfIndex (y * 12 + (mo - 1)) = ⟨y, mo, dd, td⟩ := by
  subst h1; subst h2
  unfold monthStartOfIndex
  have hy : (y * 12 + (mo - 1)) / 12 = y := by omega
  have hm : (y * 12 + (mo - 1)) % 12 + 1 = mo := by omega
  rw [hy, hm]

lemma monthStartOfIndex_of_isMonthStart {d : DT} (h : d.IsMonthStart) :
    monthStartOfIndex (d.year * 12 + (d.month - 1)) = d := by
  obtain ⟨y, mo, dd, td⟩ := d
  exact monthStartOfIndex_fields y mo dd td h.1 h.2.1 h.2.2.1 h.2.2.2

lemma monthIndex_lt_of_le {d e : DT} (hd : d.IsMonthStart)
    (he : 1 ≤ e.month) (h : d.le e) :
    d.year * 12 + (d.month - 1) < e.year * 12 + e.month := by
  obtain ⟨h1, h2, h3, h4⟩ := hd
  rcases h with h | rfl
  · unfold DT.lt at h; omega
  · omega

lemma monthStartFilter_eq_some {s e : DT} {k : Nat} {m : DT} :
    (if s.le (monthStartOfIndex k) ∧ (monthStartOfIndex k).le e then
        some (monthStartOfIndex k) else none) = some m ↔
      (monthStartOfIndex k = m ∧ s.le m ∧ m.le e) := by
  by_cases hc : s.le (monthStartOfIndex k) ∧ (monthStartOfIndex k).le e
  · rw [if_pos hc]
    constructor
    · intro h
      obtain rfl := Option.some.inj h
      exact ⟨rfl, hc.1, hc.2⟩
    · rintro ⟨rfl, -, -⟩
      rfl
  · rw [if_neg hc]
    constructor
    · intro h
      exact absurd h (by simp)
    · rintro ⟨rfl, h1, h2⟩
      exact absurd ⟨h1, h2⟩ hc

lemma mem_dateRangeMS {s e m : DT} :
    m ∈ dateRangeMS s e ↔
      ∃ k, k < e.year * 12 + e.month ∧ monthStartOfIndex k = m ∧
        s.le m ∧ m.le e := by
  unfold dateRangeMS
  simp only [List.mem_filterMap, List.mem_range]
  constructor
  · rintro ⟨k, hk, hf⟩
    exact ⟨k, hk, monthStartFilter_eq_some.mp hf⟩
  · rintro ⟨k, hk, hm⟩
    exact ⟨k, hk, monthStartFilter_eq_some.mpr hm⟩

lemma mem_generateMonthStarts {s e m : DT} (he : 1 ≤ e.month) :
    m ∈ generateMonthStarts s e ↔
      (m.IsMonthStart ∧ s.normalize.le m ∧ m.le e.normalize) := by
  unfold generateMonthStarts
  rw [mem_dateRangeMS]
  constructor
  · rintro ⟨k, hk, rfl, h1, h2⟩
    exact ⟨isMonthStart_monthStartOfIndex k, h1, h2⟩
  · rintro ⟨hm, h1, h2⟩
    refine ⟨m.year * 12 + (m.month - 1), ?_, monthStartOfIndex_of_isMonthStart hm,
      h1, h2⟩
    exact monthIndex_lt_of_le hm he h2

lemma pairwise_dateRangeMS (s e : DT) :
    List.Pairwise DT.lt (dateRangeMS s e) := by
  unfold dateRangeMS
  refine List.Pairwise.filterMap _ ?_ (List.pairwise_lt_range _)
  intro a b hab c hc c' hc'
  rw [Option.mem_def, monthStartFilter_eq_some] at hc hc'
  obtain ⟨rfl, -, -⟩ := hc
  obtain ⟨rfl, -, -⟩ := hc'
  exact monthStartOfIndex_lt_of_lt hab

lemma pairwise_generateMonthStarts (s e : DT) :
    List.Pairwise DT.lt (generateMonthStarts s e) :=
  pairwise_dateRangeMS s.normalize e.normalize

lemma nodup_generateMonthStarts (s e : DT) :
    (generateMonthStarts s e).Nodup :=
  (pairwise_generateMonthStarts s e).imp (fun h => DT.ne_of_lt h)

lemma eq_singleton_of_nodup_mem {α : Type} {l : List α} {a : α}
    (hnd : l.Nodup) (ha : a ∈ l) (huniq : ∀ b ∈ l, b = a) : l = [a] := by
  cases l with
  | nil => cases ha
  | cons x xs =>
    have hx : x = a := huniq x (List.mem_cons_self x xs)
    subst hx
    cases xs with
    | nil => rfl
    | cons y ys =>
      have hy : y = x := huniq y (by simp)
      subst hy
      simp [List.nodup_cons] at hnd

/--
Claim C5:  For all parseable (hence calendar-valid) start and end dates,
`plan_months` (= `_generate_month_starts`) returns exactly the
first-of-month boundaries `m` with `start ≤ m ≤ end` after normalizing
both bounds to midnight, in strictly ascending chronological order with
no duplicates, and returns the empty sequence when no such boundary
exists.
-/
theorem claim5_plan_months_spec (s e : DT) (hs : s.Valid) (he : e.Valid) :
    (∀ m, m ∈ generateMonthStarts s e ↔
        (m.IsMonthStart ∧ s.normalize.le m ∧ m.le e.normalize))
    ∧ List.Pairwise DT.lt (generateMonthStarts s e)
    ∧ (generateMonthStarts s e).Nodup
    ∧ ((∀ m : DT, ¬(m.IsMonthStart ∧ s.normalize.le m ∧ m.le e.normalize)) →
        generateMonthStarts s e = []) := by
  have hmem : ∀ m, m ∈ generateMonthStarts s e ↔
      (m.IsMonthStart ∧ s.normalize.le m ∧ m.le e.normalize) :=
    fun m => mem_generateMonthStarts he.1
  refine ⟨hmem, pairwise_generateMonthStarts s e,
    nodup_generateMonthStarts s e, ?_⟩
  intro hnone
  refine List.eq_nil_iff_forall_not_mem.mpr (fun m hm => ?_)
  exact hnone m ((hmem m).mp hm)

/-- Witness for C5 at a concrete window: 0002-01-15 .. 0002-03-02
contains the boundary 0002-02-01. -/
theorem claim5_witness :
    (⟨2, 2, 1, 0⟩ : DT) ∈ generateMonthStarts ⟨2, 1, 15, 0⟩ ⟨2, 3, 2, 0⟩ :=
  ((claim5_plan_months_spec ⟨2, 1, 15, 0⟩ ⟨2, 3, 2, 0⟩ (by decide)
    (by decide)).1 ⟨2, 2, 1, 0⟩).mpr (by decide)

/--
Claim C6 counterexample:  The claim says every window with `start == end`
yields an empty sequence.  But on the window whose two bounds are both
the month start 0005-03-01, `_generate_month_starts` returns that very
boundary (the pandas `date_range` is inclusive at both ends), not the empty
list.
-/
theorem claim6_counterexample :
    generateMonthStarts ⟨5, 3, 1, 0⟩ ⟨5, 3, 1, 0⟩ = [⟨5, 3, 1, 0⟩] ∧
      generateMonthStarts ⟨5, 3, 1, 0⟩ ⟨5, 3, 1, 0⟩ ≠ [] := by
  refine ⟨by decide, by decide⟩

/--
Claim C6 amended:  For all parseable windows: if the end bound is strictly
before the start bound after normalizing both to midnight, `plan_months`
returns the empty sequence; if `start == end`, it returns the empty
sequence unless the common date is a first-of-month, in which case it
returns exactly that single (normalized) boundary.
-/
theorem claim6_degenerate_windows_amended (s e : DT) (hs : s.Valid)
    (he : e.Valid) :
    (e.normalize.lt s.normalize → generateMonthStarts s e = [])
    ∧ (s = e → generateMonthStarts s e =
        if s.day = 1 then [s.normalize] else []) := by
  constructor
  · intro hlt
    refine List.eq_nil_iff_forall_not_mem.mpr (fun m hm => ?_)
    obtain ⟨-, h1, h2⟩ := (mem_generateMonthStarts he.1).mp hm
    exact DT.not_le_of_lt hlt (DT.le_trans h1 h2)
  · rintro rfl
    by_cases hd : s.day = 1
    · rw [if_pos hd]
      refine eq_singleton_of_nodup_mem (nodup_generateMonthStarts s s) ?_ ?_
      · exact (mem_generateMonthStarts hs.1).mpr
          ⟨⟨hd, rfl, hs.1, hs.2.1⟩, DT.le_refl _, DT.le_refl _⟩
      · intro b hb
        obtain ⟨-, h1, h2⟩ := (mem_generateMonthStarts hs.1).mp hb
        exact DT.le_antisymm h2 h1
    · rw [if_neg hd]
      refine List.eq_nil_iff_forall_not_mem.mpr (fun m hm => ?_)
      obtain ⟨hms, h1, h2⟩ := (mem_generateMonthStarts hs.1).mp hm
      have hm2 : m = s.normalize := DT.le_antisymm h2 h1
      subst hm2
      exact hd hms.1

/-- Witness for the amended C6: the reversed window 0003-04-02 ..
0003-02-05 yields no months, and the point window at 0003-05-04 (not a
month start) also yields no months. -/
theorem claim6_witness :
    generateMonthStarts ⟨3, 4, 2, 0⟩ ⟨3, 2, 5, 0⟩ = [] ∧
      generateMonthStarts ⟨3, 5, 4, 0⟩ ⟨3, 5, 4, 0⟩ = [] := by
  constructor
  · exact (claim6_degenerate_windows_amended ⟨3, 4, 2, 0⟩ ⟨3, 2, 5, 0⟩
      (by decide) (by decide)).1 (by decide)
  · have h := (claim6_degenerate_windows_amended ⟨3, 5, 4, 0⟩ ⟨3, 5, 4, 0⟩
      (by decide) (by decide)).2 rfl
    simpa using h

/-! ### DataFrame lemmas -/

lemma maskList_nil {α : Type} (bs : List Bool) : maskList bs ([] : List α) = [] := by
  cases bs <;> rfl

lemma maskList_map_self {α : Type} (p : α → Bool) (xs : List α) :
    maskList (xs.map p) xs = xs.filter p := by
  induction xs with
  | nil => rfl
  | cons x xs ih =>
    by_cases hx : p x = true <;> simp [maskList, List.filter_cons, hx, ih]

namespace DF

lemma hasCol_iff {df : DF} {n : String} :
    df.hasCol n = true ↔ ∃ c ∈ df.cols, c.1 = n := by
  unfold hasCol colNames
  rw [decide_eq_true_iff]
  constructor
  · intro h
    obtain ⟨c, hc, hcn⟩ := List.mem_map.mp h
    exact ⟨c, hc, hcn⟩
  · rintro ⟨c, hc, rfl⟩
    exact List.mem_map.mpr ⟨c, hc, rfl⟩

lemma idx_setCol (df : DF) (n : String) (vs : List Val) :
    (df.setCol n vs).idx = df.idx := by
  unfold setCol; split <;> rfl

lemma nrows_setCol (df : DF) (n : String) (vs : List Val) :
    (df.setCol n vs).nrows = df.nrows := by
  unfold nrows; rw [idx_setCol]

lemma getColList_replace_of_mem (cols : List (String × List Val))
    (n : String) (vs : List Val) (h : ∃ c ∈ cols, c.1 = n) :
    getColList (cols.map fun c => if c.1 == n then (c.1, vs) else c) n = vs := by
  induction cols with
  | nil => obtain ⟨c, hc, -⟩ := h; cases hc
  | cons x xs ih =>
    by_cases hx : x.1 = n
    · simp [getColList, hx]
    · rw [List.map_cons, if_neg (by simp [hx]), getColList, if_neg (by simp [hx])]
      apply ih
      obtain ⟨c, hc, hcn⟩ := h
      rcases List.mem_cons.mp hc with rfl | hc2
      · exact absurd hcn hx
      · exact ⟨c, hc2, hcn⟩

lemma getColList_append_self (cols : List (String × List Val))
    (n : String) (vs : List Val) (h : ∀ c ∈ cols, c.1 ≠ n) :
    getColList (cols ++ [(n, vs)]) n = vs := by
  induction cols with
  | nil => simp [getColList]
  | cons x xs ih =>
    rw [List.cons_append, getColList,
      if_neg (by simp [h x (List.mem_cons_self x xs)])]
    exact ih (fun c hc => h c (List.mem_cons_of_mem x hc))

lemma getCol_setCol_self (df : DF) (n : String) (vs : List Val) :
    (df.setCol n vs).getCol n = vs := by
  unfold setCol
  by_cases h : df.hasCol n = true
  · rw [if_pos h]
    exact getColList_replace_of_mem df.cols n vs (hasCol_iff.mp h)
  · rw [if_neg h]
    refine getColList_append_self df.cols n vs (fun c hc hcn => ?_)
    exact h (hasCol_iff.mpr ⟨c, hc, hcn⟩)

lemma getColList_replace_ne (cols : List (String × List Val))
    (n c : String) (vs : List Val) (hc : c ≠ n) :
    getColList (cols.map fun x => if x.1 == n then (x.1, vs) else x) c =
      getColList cols c := by
  induction cols with
  | nil => rfl
  | cons x xs ih =>
    by_cases hx : x.1 = n
    · have hxc : (x.1 == c) = false := by
        simp only [beq_eq_false_iff_ne, ne_eq]
        intro he
        exact hc (he ▸ hx)
      rw [List.map_cons, if_pos (by simp [hx])]
      simp only [getColList]
      rw [if_neg (by simp [hxc]), if_neg (by simp_all), ih]
    · rw [List.map_cons, if_neg (by simp [hx])]
      unfold getColList
      split
      · rfl
      · exact ih

lemma getColList_append_ne (cols : List (String × List Val))
    (n c : String) (vs : List Val) (hc : c ≠ n) :
    getColList (cols ++ [(n, vs)]) c = getColList cols c := by
  induction cols with
  | nil => simp [getColList, Ne.symm hc]
  | cons x xs ih =>
    rw [List.cons_append]
    unfold getColList
    split
    · rfl
    · exact ih

lemma getCol_setCol_ne (df : DF) (n c : String) (vs : List Val)
    (hc : c ≠ n) : (df.setCol n vs).getCol c = df.getCol c := by
  unfold setCol
  split
  · exact getColList_replace_ne df.cols n c vs hc
  · exact getColList_append_ne df.cols n c vs hc

lemma colNames_setCol_of_hasCol {df : DF} {n : String} (vs : List Val)
    (h : df.hasCol n = true) : (df.setCol n vs).colNames = df.colNames := by
  unfold setCol
  rw [if_pos h]
  unfold colNames
  show (df.cols.map fun c => if c.1 == n then (c.1, vs) else c).map Prod.fst =
    df.cols.map Prod.fst
  rw [List.map_map]
  apply List.map_congr_left
  intro x _
  dsimp only [Function.comp]
  split <;> rfl

lemma colNames_setCol_of_not {df : DF} {n : String} (vs : List Val)
    (h : df.hasCol n = false) :
    (df.setCol n vs).colNames = df.colNames ++ [n] := by
  unfold setCol
  rw [if_neg (by simp [h])]
  unfold colNames
  show (df.cols ++ [(n, vs)]).map Prod.fst = df.cols.map Prod.fst ++ [n]
  rw [List.map_append]
  rfl

lemma hasCol_setCol_ne {df : DF} {n c : String} (vs : List Val)
    (hc : c ≠ n) : (df.setCol n vs).hasCol c = df.hasCol c := by
  by_cases h : df.hasCol n = true
  · unfold hasCol
    rw [colNames_setCol_of_hasCol vs h]
  · unfold hasCol
    rw [colNames_setCol_of_not vs (by simpa using h)]
    simp [hc]

end DF

/-! ### Lemmas about the canonical-fill loop, projection and concat -/

lemma DF.idx_select (df : DF) (names : List String) :
    (df.select names).idx = df.idx := rfl

lemma DF.idx_renameCols (df : DF) (rm : List (String × String)) :
    (df.renameCols rm).idx = df.idx := rfl

lemma fillMissing_idx (d : DF) (n : String) : (fillMissing d n).idx = d.idx := by
  unfold fillMissing
  split
  · rfl
  · exact DF.idx_setCol d n _

lemma fillMissing_nrows (d : DF) (n : String) :
    (fillMissing d n).nrows = d.nrows := by
  unfold DF.nrows; rw [fillMissing_idx]

lemma fillMissing_getCol_ne (d : DF) (n c : String) (h : c ≠ n) :
    (fillMissing d n).getCol c = d.getCol c := by
  unfold fillMissing
  split
  · rfl
  · exact DF.getCol_setCol_ne d n c _ h

lemma fillMissing_hasCol_ne (d : DF) (n c : String) (h : c ≠ n) :
    (fillMissing d n).hasCol c = d.hasCol c := by
  unfold fillMissing
  split
  · rfl
  · exact DF.hasCol_setCol_ne _ h

lemma fillMissing_getCol_self (d : DF) (n : String) :
    (fillMissing d n).getCol n =
      if d.hasCol n = true then d.getCol n
      else List.replicate d.nrows Val.null := by
  unfold fillMissing
  by_cases h : d.hasCol n = true
  · rw [if_pos h, if_pos h]
  · rw [if_neg (by simpa using h), if_neg h]
    exact DF.getCol_setCol_self d n _

lemma foldl_fill_idx (names : List String) (d : DF) :
    (names.foldl fillMissing d).idx = d.idx := by
  induction names generalizing d with
  | nil => rfl
  | cons n ns ih =>
    rw [List.foldl_cons, ih, fillMissing_idx]

lemma foldl_fill_getCol_not_mem (names : List String) (d : DF) (c : String)
    (h : c ∉ names) : (names.foldl fillMissing d).getCol c = d.getCol c := by
  induction names generalizing d with
  | nil => rfl
  | cons n ns ih =>
    rw [List.foldl_cons, ih _ (fun hc => h (List.mem_cons_of_mem n hc)),
      fillMissing_getCol_ne d n c (fun hc => h (hc ▸ List.mem_cons_self n ns))]

lemma foldl_fill_getCol_mem (names : List String) (d : DF) (c : String)
    (hnd : names.Nodup) (hc : c ∈ names) :
    (names.foldl fillMissing d).getCol c =
      if d.hasCol c = true then d.getCol c
      else List.replicate d.nrows Val.null := by
  induction names generalizing d with
  | nil => cases hc
  | cons n ns ih =>
    rw [List.foldl_cons]
    by_cases hcn : c = n
    · subst hcn
      rw [foldl_fill_getCol_not_mem ns _ c (List.nodup_cons.mp hnd).1]
      exact fillMissing_getCol_self d c
    · have hc2 : c ∈ ns := by
        rcases List.mem_cons.mp hc with h | h
        · exact absurd h hcn
        · exact h
      have hnd2 : ns.Nodup := (List.nodup_cons.mp hnd).2
      rw [ih (fillMissing d n) hnd2 hc2,
        fillMissing_hasCol_ne d n c hcn, fillMissing_getCol_ne d n c hcn,
        fillMissing_nrows]

lemma getColList_mapNames (names : List String) (F : String → List Val)
    (c : String) (hc : c ∈ names) :
    DF.getColList (names.map (fun n => (n, F n))) c = F c := by
  induction names with
  | nil => cases hc
  | cons n ns ih =>
    rw [List.map_cons]
    by_cases hn : n = c
    · subst hn
      simp [DF.getColList]
    · rw [DF.getColList, if_neg (by simp [hn])]
      have hc2 : c ∈ ns := by
        rcases List.mem_cons.mp hc with h | h
        · exact absurd h.symm hn
        · exact h
      exact ih hc2

lemma getColList_cons (x : String × List Val)
    (xs : List (String × List Val)) (c : String) :
    DF.getColList (x :: xs) c =
      if (x.1 == c) = true then x.2 else DF.getColList xs c := rfl

lemma getColList_all_ne_nil (xs : List (String × List Val)) (c : String)
    (h : ∀ x ∈ xs, (x.1 == c) = false) : DF.getColList xs c = [] := by
  induction xs with
  | nil => rfl
  | cons x xs ih =>
    rw [getColList_cons, if_neg (by simp [h x (List.mem_cons_self x xs)])]
    exact ih (fun y hy => h y (List.mem_cons_of_mem x hy))

lemma getColList_append_all_ne (xs ys : List (String × List Val))
    (c : String) (h : ∀ x ∈ xs, (x.1 == c) = false) :
    DF.getColList (xs ++ ys) c = DF.getColList ys c := by
  induction xs with
  | nil => rfl
  | cons x xs ih =>
    rw [List.cons_append, getColList_cons,
      if_neg (by simp [h x (List.mem_cons_self x xs)])]
    exact ih (fun y hy => h y (List.mem_cons_of_mem x hy))

lemma getColList_filter_self_append (cols ys : List (String × List Val))
    (c : String) (h : ∃ x ∈ cols, (x.1 == c) = true) :
    DF.getColList (cols.filter (fun x => x.1 == c) ++ ys) c =
      DF.getColList cols c := by
  induction cols with
  | nil => obtain ⟨x, hx, -⟩ := h; cases hx
  | cons x xs ih =>
    rw [List.filter_cons]
    by_cases hx : (x.1 == c) = true
    · rw [if_pos hx, List.cons_append, getColList_cons, if_pos hx,
        getColList_cons, if_pos hx]
    · rw [if_neg hx, getColList_cons, if_neg hx]
      apply ih
      obtain ⟨y, hy, hyc⟩ := h
      rcases List.mem_cons.mp hy with rfl | hy2
      · exact absurd hyc hx
      · exact ⟨y, hy2, hyc⟩

lemma DF.getCol_select_mem (df : DF) (names : List String) (c : String)
    (hc : c ∈ names) : (df.select names).getCol c = df.getCol c := by
  unfold DF.select DF.getCol
  show DF.getColList
      (names.flatMap fun n => df.cols.filter (fun x => x.1 == n)) c =
    DF.getColList df.cols c
  induction names with
  | nil => cases hc
  | cons n ns ih =>
    rw [List.flatMap_cons]
    by_cases hn : n = c
    · subst hn
      by_cases hhas : ∃ x ∈ df.cols, (x.1 == n) = true
      · exact getColList_filter_self_append df.cols _ n hhas
      · have hfil : df.cols.filter (fun x => x.1 == n) = [] := by
          rw [List.filter_eq_nil_iff]
          intro x hx hxc
          exact hhas ⟨x, hx, hxc⟩
        rw [hfil, List.nil_append]
        have hrhs : DF.getColList df.cols n = [] := by
          apply getColList_all_ne_nil
          intro x hx
          cases hb : (x.1 == n) with
          | false => rfl
          | true => exact absurd ⟨x, hx, hb⟩ hhas
        rw [hrhs]
        apply getColList_all_ne_nil
        intro x hx
        obtain ⟨m, hm, hxm⟩ := List.mem_flatMap.mp hx
        cases hb : (x.1 == n) with
        | false => rfl
        | true => exact absurd ⟨x, (List.mem_filter.mp hxm).1, hb⟩ hhas
    · have hc2 : c ∈ ns := by
        rcases List.mem_cons.mp hc with h | h
        · exact absurd h.symm hn
        · exact h
      have hne : ∀ x ∈ df.cols.filter (fun x => x.1 == n),
          (x.1 == c) = false := by
        intro x hx
        have hxn : x.1 = n := by simpa using (List.mem_filter.mp hx).2
        simp [hxn, hn]
      rw [getColList_append_all_ne _ _ c hne]
      exact ih hc2

/-- Number of columns of a frame carrying a given label.  The pandas
projection collapses nothing, so the shape of the output of
`_normalize_columns` depends on these counts. -/
def labelCount (cols : List (String × List Val)) (c : String) : Nat :=
  (cols.filter (fun x => x.1 == c)).length

lemma labelCount_append (xs ys : List (String × List Val)) (c : String) :
    labelCount (xs ++ ys) c = labelCount xs c + labelCount ys c := by
  unfold labelCount
  rw [List.filter_append, List.length_append]

lemma labelCount_eq_zero_of_not_hasCol {df : DF} {c : String}
    (h : df.hasCol c = false) : labelCount df.cols c = 0 := by
  unfold labelCount
  rw [List.length_eq_zero, List.filter_eq_nil_iff]
  intro x hx hb
  have hcol : df.hasCol c = true :=
    DF.hasCol_iff.mpr ⟨x, hx, by simpa using hb⟩
  rw [h] at hcol
  cases hcol

lemma one_le_labelCount_of_hasCol {df : DF} {c : String}
    (h : df.hasCol c = true) : 1 ≤ labelCount df.cols c := by
  obtain ⟨x, hx, hxc⟩ := DF.hasCol_iff.mp h
  have hmem : x ∈ df.cols.filter (fun y => y.1 == c) :=
    List.mem_filter.mpr ⟨hx, by simp [hxc]⟩
  exact List.length_pos_of_mem hmem

lemma setCol_of_not_hasCol {df : DF} {n : String} (vs : List Val)
    (h : df.hasCol n = false) :
    df.setCol n vs = ⟨df.cols ++ [(n, vs)], df.idx⟩ := by
  unfold DF.setCol
  rw [if_neg (by simp [h])]

lemma colNames_select_of_unique (df : DF) (names : List String)
    (h : ∀ c ∈ names, labelCount df.cols c = 1) :
    (df.select names).colNames = names := by
  unfold DF.select DF.colNames
  show (names.flatMap fun n => df.cols.filter (fun x => x.1 == n)).map
    Prod.fst = names
  induction names with
  | nil => rfl
  | cons n ns ih =>
    rw [List.flatMap_cons, List.map_append]
    have h1 : (df.cols.filter (fun y => y.1 == n)).length = 1 :=
      h n (List.mem_cons_self n ns)
    obtain ⟨x, hx⟩ := List.length_eq_one.mp h1
    have hxn : x.1 = n := by
      have hmem : x ∈ df.cols.filter (fun y => y.1 == n) := by
        rw [hx]
        exact List.mem_cons_self x []
      simpa using (List.mem_filter.mp hmem).2
    rw [hx]
    simp only [List.map_cons, List.map_nil]
    rw [hxn, ih (fun c hc => h c (List.mem_cons_of_mem n hc))]
    rfl

lemma DF.getCol_filterMask (df : DF) (mask : List Bool) (c : String) :
    (df.filterMask mask).getCol c = maskList mask (df.getCol c) := by
  unfold DF.filterMask DF.getCol
  show DF.getColList (df.cols.map fun p => (p.1, maskList mask p.2)) c =
    maskList mask (DF.getColList df.cols c)
  induction df.cols with
  | nil => exact (maskList_nil mask).symm
  | cons x xs ih =>
    rw [List.map_cons]
    unfold DF.getColList
    split
    · rfl
    · exact ih

instance instDecidableEqExcept {e a : Type} [DecidableEq e] [DecidableEq a] :
    DecidableEq (Except e a) := fun x y =>
  match x, y with
  | .ok v, .ok w =>
    if h : v = w then isTrue (h ▸ rfl)
    else isFalse (fun he => h (Except.ok.inj he))
  | .error v, .error w =>
    if h : v = w then isTrue (h ▸ rfl)
    else isFalse (fun he => h (Except.error.inj he))
  | .ok _, .error _ => isFalse Except.noConfusion
  | .error _, .ok _ => isFalse Except.noConfusion

/-! ### The schema normalizer: claims C1, C3, C7, C10 -/

lemma normalizeColumns_eq_ok {df : DF} {tt : String} {out : DF}
    (h : normalizeColumns df tt = .ok out) :
    ∃ p d, detectPair df = some (p, d) ∧ out = normalizeOk df tt p d := by
  unfold normalizeColumns at h
  cases hd : detectPair df with
  | none =>
    rw [hd] at h
    cases h
  | some pr =>
    obtain ⟨p, d⟩ := pr
    rw [hd] at h
    exact ⟨p, d, rfl, (Except.ok.inj h).symm⟩

lemma normalizeOk_idx (df : DF) (tt p d : String) :
    (normalizeOk df tt p d).idx = df.idx := by
  simp only [normalizeOk]
  rw [DF.idx_setCol, DF.idx_select, foldl_fill_idx, DF.idx_renameCols]

lemma normalizeOk_nrows (df : DF) (tt p d : String) :
    (normalizeOk df tt p d).nrows = df.nrows := by
  unfold DF.nrows
  rw [normalizeOk_idx]

lemma labelCount_fillMissing_ne (d : DF) (n c : String) (h : c ≠ n) :
    labelCount (fillMissing d n).cols c = labelCount d.cols c := by
  unfold fillMissing
  split
  · rfl
  · rename_i hno
    rw [setCol_of_not_hasCol _ (by simpa using hno)]
    show labelCount (d.cols ++ [(n, List.replicate d.nrows Val.null)]) c = _
    rw [labelCount_append]
    have hbe : (n == c) = false := beq_eq_false_iff_ne.mpr (Ne.symm h)
    have hone : labelCount [(n, List.replicate d.nrows Val.null)] c = 0 := by
      simp [labelCount, List.filter, hbe]
    rw [hone]
    omega

lemma labelCount_fillMissing_self (d : DF) (n : String)
    (hle : labelCount d.cols n ≤ 1) :
    labelCount (fillMissing d n).cols n = 1 := by
  unfold fillMissing
  split
  · rename_i hhas
    have h1 : 1 ≤ labelCount d.cols n := one_le_labelCount_of_hasCol hhas
    omega
  · rename_i hno
    rw [setCol_of_not_hasCol _ (by simpa using hno)]
    show labelCount (d.cols ++ [(n, List.replicate d.nrows Val.null)]) n = 1
    rw [labelCount_append,
      labelCount_eq_zero_of_not_hasCol (by simpa using hno)]
    simp [labelCount, List.filter]

lemma foldl_fill_labelCount_not_mem (names : List String) (d : DF)
    (c : String) (h : c ∉ names) :
    labelCount ((names.foldl fillMissing d).cols) c = labelCount d.cols c := by
  induction names generalizing d with
  | nil => rfl
  | cons n ns ih =>
    rw [List.foldl_cons, ih _ (fun hc => h (List.mem_cons_of_mem n hc)),
      labelCount_fillMissing_ne d n c
        (fun hc => h (hc ▸ List.mem_cons_self n ns))]

lemma foldl_fill_labelCount_mem (names : List String) (d : DF) (c : String)
    (hnd : names.Nodup) (hc : c ∈ names)
    (hle : labelCount d.cols c ≤ 1) :
    labelCount ((names.foldl fillMissing d).cols) c = 1 := by
  induction names generalizing d with
  | nil => cases hc
  | cons n ns ih =>
    rw [List.foldl_cons]
    by_cases hcn : c = n
    · subst hcn
      rw [foldl_fill_labelCount_not_mem ns _ c (List.nodup_cons.mp hnd).1]
      exact labelCount_fillMissing_self d c hle
    · have hc2 : c ∈ ns := by
        rcases List.mem_cons.mp hc with h | h
        · exact absurd h hcn
        · exact h
      exact ih (fillMissing d n) (List.nodup_cons.mp hnd).2 hc2
        (by rw [labelCount_fillMissing_ne d n c hcn]; exact hle)

/-- A raw batch in the `tpep_` convention that also carries a stray
source column already named `dropoff_datetime`. -/
def dfC1 : DF :=
  ⟨[("tpep_pickup_datetime", [Val.ts ⟨2, 1, 10, 0⟩]),
    ("tpep_dropoff_datetime", [Val.ts ⟨2, 1, 10, 5⟩]),
    ("dropoff_datetime", [Val.ts ⟨2, 1, 10, 7⟩])], [0]⟩

/--
Claim C1 counterexample:  the claim says every successful normalize
returns exactly the seven canonical columns with every extra source
column discarded.  On `dfC1` the rename turns `tpep_dropoff_datetime`
into a second `dropoff_datetime` label, and the pandas label-based
projection `df[required_columns]` then keeps both: the real output has
eight columns, the stray column retained, so the claim fails as
universally stated.
-/
theorem claim1_counterexample :
    (normalizeColumns dfC1 "yellow").map (fun o => o.colNames) =
      .ok ["pickup_datetime", "dropoff_datetime", "dropoff_datetime",
        "pickup_location_id", "dropoff_location_id", "fare_amount",
        "payment_type", "taxi_type"]
    ∧ (normalizeColumns dfC1 "yellow").map
        (fun o => decide (o.colNames = canonicalColumns)) = .ok false
    ∧ (normalizeColumns dfC1 "yellow").map (fun o => o.colNames.length) =
      .ok 8 :=
  ⟨rfl, rfl, rfl⟩

/--
Claim C1 amended:  for every raw batch on which `_normalize_columns`
succeeds *and in which, after renaming, at most one column carries each
canonical label* (no rename collision with a stray canonical-named
source column), the returned batch has exactly the seven canonical
columns in that fixed order, every extra source column is discarded, the
row count equals the row count of the input, and every canonical data
field absent from the renamed source is a null column (the `taxi_type`
field is also inserted as null when absent, and is then overwritten with
the supplied fleet label, proved separately).
-/
theorem claim1_canonical_shape_amended (df : DF) (tt : String) (out : DF)
    (p d : String) (hd : detectPair df = some (p, d))
    (hdup : ∀ c ∈ canonicalColumns,
      labelCount (df.renameCols (buildRenameMap df p d)).cols c ≤ 1)
    (h : normalizeColumns df tt = .ok out) :
    out.colNames = canonicalColumns
    ∧ out.nrows = df.nrows
    ∧ (∀ c ∈ canonicalColumns, c ≠ "taxi_type" →
        (df.renameCols (buildRenameMap df p d)).hasCol c = false →
        out.getCol c = List.replicate df.nrows Val.null) := by
  obtain ⟨p2, d2, hd2, hout⟩ := normalizeColumns_eq_ok h
  rw [hd] at hd2
  injection hd2 with hpr
  injection hpr with hp hdd
  rw [← hp, ← hdd] at hout
  refine ⟨?_, ?_, ?_⟩
  · rw [hout]
    have hfillcount : ∀ c ∈ canonicalColumns,
        labelCount ((canonicalColumns.foldl fillMissing
          (df.renameCols (buildRenameMap df p d))).cols) c = 1 :=
      fun c hc => foldl_fill_labelCount_mem canonicalColumns
        (df.renameCols (buildRenameMap df p d)) c (by decide) hc (hdup c hc)
    have hsel := colNames_select_of_unique
      (canonicalColumns.foldl fillMissing
        (df.renameCols (buildRenameMap df p d)))
      canonicalColumns hfillcount
    have htaxi : ((canonicalColumns.foldl fillMissing
        (df.renameCols (buildRenameMap df p d))).select
          canonicalColumns).hasCol "taxi_type" = true := by
      unfold DF.hasCol
      rw [hsel]
      decide
    simp only [normalizeOk]
    rw [DF.colNames_setCol_of_hasCol _ htaxi, hsel]
  · rw [hout]
    exact normalizeOk_nrows df tt p d
  · intro c hcmem hctaxi habs
    rw [hout]
    simp only [normalizeOk]
    rw [DF.getCol_setCol_ne _ _ _ _ hctaxi,
      DF.getCol_select_mem _ _ _ hcmem,
      foldl_fill_getCol_mem canonicalColumns _ c (by decide) hcmem,
      if_neg (by simp [habs])]
    rfl

/-- A concrete raw batch in the fleet-variant-A (`tpep_`) convention,
with one extra column and no label collisions. -/
def dfW1 : DF :=
  ⟨[("tpep_pickup_datetime", [Val.ts ⟨2, 1, 10, 3⟩]),
    ("tpep_dropoff_datetime", [Val.ts ⟨2, 1, 10, 9⟩]),
    ("fare_amount", [Val.vInt 10]),
    ("extra", [Val.vStr "a"])], [0]⟩

/-- Witness for the amended C1 on `dfW1`: canonical columns, preserved
row count, and the absent `payment_type` field becomes a null column. -/
theorem claim1_witness :
    (normalizeOk dfW1 "yellow" "tpep_pickup_datetime"
      "tpep_dropoff_datetime").colNames = canonicalColumns
    ∧ (normalizeOk dfW1 "yellow" "tpep_pickup_datetime"
        "tpep_dropoff_datetime").nrows = dfW1.nrows
    ∧ (normalizeOk dfW1 "yellow" "tpep_pickup_datetime"
        "tpep_dropoff_datetime").getCol "payment_type" =
      List.replicate dfW1.nrows Val.null := by
  have h := claim1_canonical_shape_amended dfW1 "yellow"
    (normalizeOk dfW1 "yellow" "tpep_pickup_datetime" "tpep_dropoff_datetime")
    "tpep_pickup_datetime" "tpep_dropoff_datetime" rfl (by decide) rfl
  exact ⟨h.1, h.2.1, h.2.2 "payment_type" (by decide) (by decide) rfl⟩

/--
Claim C7:  In every batch returned by `_normalize_columns`, the
`taxi_type` column equals the caller-supplied fleet label in every row,
whatever the source data contained.
-/
theorem claim7_taxi_type_overwrite (df : DF) (tt : String) (out : DF)
    (h : normalizeColumns df tt = .ok out) :
    out.getCol "taxi_type" = List.replicate df.nrows (Val.vStr tt) := by
  obtain ⟨p, d, hd, hout⟩ := normalizeColumns_eq_ok h
  rw [hout]
  have hn : ((canonicalColumns.foldl fillMissing
      (df.renameCols (buildRenameMap df p d))).select
        canonicalColumns).nrows = df.nrows := by
    unfold DF.nrows
    rw [DF.idx_select, foldl_fill_idx, DF.idx_renameCols]
  simp only [normalizeOk]
  rw [DF.getCol_setCol_self, hn]

/-- A concrete raw batch that already carries a conflicting `taxi_type`
value in its source data. -/
def dfW7 : DF :=
  ⟨[("pickup_datetime", [Val.ts ⟨2, 1, 3, 0⟩]),
    ("dropoff_datetime", [Val.ts ⟨2, 1, 3, 5⟩]),
    ("taxi_type", [Val.vStr "stale"])], [0]⟩

/-- Witness for C7: the source-embedded `taxi_type` value "stale" is
overwritten with the label of the caller. -/
theorem claim7_witness :
    (normalizeOk dfW7 "green" "pickup_datetime" "dropoff_datetime").getCol
      "taxi_type" = List.replicate dfW7.nrows (Val.vStr "green") :=
  claim7_taxi_type_overwrite dfW7 "green"
    (normalizeOk dfW7 "green" "pickup_datetime" "dropoff_datetime") rfl

/-- A raw batch carrying a variant pickup column without its dropoff
partner: no *pair* of pickup/dropoff names is fully present. -/
def dfC3 : DF := ⟨[("tpep_pickup_datetime", [Val.ts ⟨2, 1, 10, 0⟩])], [0]⟩

/--
Claim C3 counterexample:  The claim says `UnrecognizedSchemaError` is
raised *iff none of the three pickup/dropoff column-name pairs is
present*.  `dfC3` contains none of the three pairs (it has
`tpep_pickup_datetime` but not `tpep_dropoff_datetime`, and neither
generic nor `lpep_` columns), yet `_normalize_columns` succeeds, because
the source only tests the pickup name of each pair.
-/
theorem claim3_counterexample :
    (¬(dfC3.hasCol "pickup_datetime" = true ∧
        dfC3.hasCol "dropoff_datetime" = true))
    ∧ (¬(dfC3.hasCol "tpep_pickup_datetime" = true ∧
        dfC3.hasCol "tpep_dropoff_datetime" = true))
    ∧ (¬(dfC3.hasCol "lpep_pickup_datetime" = true ∧
        dfC3.hasCol "lpep_dropoff_datetime" = true))
    ∧ normalizeColumns dfC3 "yellow" =
        .ok (normalizeOk dfC3 "yellow" "tpep_pickup_datetime"
          "tpep_dropoff_datetime") := by
  exact ⟨by decide, by decide, by decide, rfl⟩

/--
Claim C3 amended:  `_normalize_columns` tries the three conventions in the
fixed priority order generic, then `tpep_`, then `lpep_`, selecting a
convention by the presence of its *pickup* column alone, and raises
`UnrecognizedSchemaError` if and only if none of the three pickup column
names is present in the raw batch.
-/
theorem claim3_detection_priority_amended (df : DF) (tt : String) :
    (normalizeColumns df tt = .error .unrecognizedSchema ↔
      (df.hasCol "pickup_datetime" = false ∧
        df.hasCol "tpep_pickup_datetime" = false ∧
        df.hasCol "lpep_pickup_datetime" = false))
    ∧ (df.hasCol "pickup_datetime" = true →
        detectPair df = some ("pickup_datetime", "dropoff_datetime"))
    ∧ (df.hasCol "pickup_datetime" = false →
        df.hasCol "tpep_pickup_datetime" = true →
        detectPair df = some ("tpep_pickup_datetime", "tpep_dropoff_datetime"))
    ∧ (df.hasCol "pickup_datetime" = false →
        df.hasCol "tpep_pickup_datetime" = false →
        df.hasCol "lpep_pickup_datetime" = true →
        detectPair df = some ("lpep_pickup_datetime", "lpep_dropoff_datetime")) := by
  unfold normalizeColumns detectPair
  by_cases h1 : df.hasCol "pickup_datetime" = true <;>
    by_cases h2 : df.hasCol "tpep_pickup_datetime" = true <;>
      by_cases h3 : df.hasCol "lpep_pickup_datetime" = true <;>
        simp_all

/-- Witness for the amended C3: a frame with no columns at all raises
the schema error. -/
theorem claim3_witness :
    normalizeColumns (DF.mk [] []) "yellow" = .error .unrecognizedSchema :=
  (claim3_detection_priority_amended (DF.mk [] []) "yellow").1.mpr (by decide)

/-- A raw batch with a `tpep_` pickup column, no `tpep_` dropoff
partner, but a stray source column already named `dropoff_datetime`. -/
def dfC10 : DF :=
  ⟨[("tpep_pickup_datetime", [Val.ts ⟨2, 1, 10, 0⟩]),
    ("dropoff_datetime", [Val.ts ⟨2, 1, 10, 7⟩])], [0]⟩

/--
Claim C10 counterexample:  `dfC10` contains the pickup column of the
`tpep_` variant and is missing the dropoff partner of that variant, so the
claim asserts the normalized `dropoff_datetime` is null in every row.
`_normalize_columns` indeed succeeds, but the returned `dropoff_datetime`
column holds the stray source value, not null.
-/
theorem claim10_counterexample :
    dfC10.hasCol "tpep_pickup_datetime" = true
    ∧ dfC10.hasCol "tpep_dropoff_datetime" = false
    ∧ (normalizeColumns dfC10 "yellow").map
        (fun o => o.getCol "dropoff_datetime") = .ok [Val.ts ⟨2, 1, 10, 7⟩]
    ∧ (normalizeColumns dfC10 "yellow").map
        (fun o => decide (o.getCol "dropoff_datetime" =
          List.replicate o.nrows Val.null)) = .ok false := by
  exact ⟨rfl, rfl, rfl, rfl⟩

/--
Claim C10 amended:  `_normalize_columns` never raises when the pickup
column of some variant is present (the presence check inspects only pickup
names); and when additionally no column named `dropoff_datetime` remains
after the renaming step — in particular the dropoff partner of the
detected variant is absent — the returned `dropoff_datetime` is null for
every row.
-/
theorem claim10_missing_dropoff_amended (df : DF) (tt p d : String)
    (h1 : detectPair df = some (p, d))
    (h2 : (df.renameCols (buildRenameMap df p d)).hasCol
      "dropoff_datetime" = false) :
    normalizeColumns df tt = .ok (normalizeOk df tt p d)
    ∧ (normalizeOk df tt p d).getCol "dropoff_datetime" =
        List.replicate df.nrows Val.null := by
  constructor
  · unfold normalizeColumns
    rw [h1]
  · simp only [normalizeOk]
    rw [DF.getCol_setCol_ne _ _ _ _ (by decide),
      DF.getCol_select_mem _ _ _ (by decide),
      foldl_fill_getCol_mem canonicalColumns _ _ (by decide) (by decide),
      if_neg (by simp [h2])]
    rfl

/-- A raw batch with only a `tpep_` pickup column (plus an unrelated
column). -/
def dfW10 : DF :=
  ⟨[("tpep_pickup_datetime", [Val.ts ⟨2, 1, 5, 0⟩]),
    ("x", [Val.vInt 3])], [0]⟩

/-- Witness for the amended C10 on `dfW10`. -/
theorem claim10_witness :
    normalizeColumns dfW10 "green" =
      .ok (normalizeOk dfW10 "green" "tpep_pickup_datetime"
        "tpep_dropoff_datetime")
    ∧ (normalizeOk dfW10 "green" "tpep_pickup_datetime"
        "tpep_dropoff_datetime").getCol "dropoff_datetime" =
      List.replicate dfW10.nrows Val.null :=
  claim10_missing_dropoff_amended dfW10 "green" "tpep_pickup_datetime"
    "tpep_dropoff_datetime" rfl rfl

/-! ### The fetch-and-filter loop and aggregator: claims C2, C4, C8, C9 -/

lemma processPair_ok_some {fetch : FetchFn} {sTs eTs : DT} {tt : String}
    {m : DT} {d0 : DF}
    (h : processPair fetch sTs eTs tt m = .ok (some d0)) :
    ∃ raw ndf, fetch tt m.year m.month = .ok raw ∧
      normalizeColumns raw tt = .ok ndf ∧
      d0 = filterWindow ndf sTs eTs ∧ d0.nrows ≠ 0 := by
  unfold processPair at h
  cases hf : fetch tt m.year m.month with
  | error u =>
    simp only [hf] at h
    simp at h
  | ok raw =>
    simp only [hf] at h
    cases hn : normalizeColumns raw tt with
    | error e0 =>
      simp only [hn] at h
      cases h
    | ok ndf =>
      simp only [hn] at h
      split at h
      · simp at h
      · rename_i hnz
        obtain rfl := Option.some.inj (Except.ok.inj h)
        exact ⟨raw, ndf, rfl, hn, rfl, hnz⟩

lemma processPair_error {fetch : FetchFn} {sTs eTs : DT} {tt : String}
    {m : DT} {err : PipeError}
    (h : processPair fetch sTs eTs tt m = .error err) :
    ∃ raw, fetch tt m.year m.month = .ok raw ∧
      normalizeColumns raw tt = .error err := by
  unfold processPair at h
  cases hf : fetch tt m.year m.month with
  | error u =>
    simp only [hf] at h
    cases h
  | ok raw =>
    simp only [hf] at h
    cases hn : normalizeColumns raw tt with
    | error e0 =>
      simp only [hn] at h
      obtain rfl := Except.error.inj h
      exact ⟨raw, rfl, hn⟩
    | ok ndf =>
      simp only [hn] at h
      split at h
      · cases h
      · cases h

lemma runPairs_ok_mem (fetch : FetchFn) (sTs eTs : DT) :
    ∀ (pairs : List (String × DT)) (ds : List DF),
      runPairs fetch sTs eTs pairs = .ok ds →
      ∀ d ∈ ds, ∃ ndf, d = filterWindow ndf sTs eTs := by
  intro pairs
  induction pairs with
  | nil =>
    intro ds h d hd
    obtain rfl := Except.ok.inj h
    cases hd
  | cons p rest ih =>
    intro ds h d hd
    unfold runPairs at h
    cases hpp : processPair fetch sTs eTs p.1 p.2 with
    | error e0 =>
      rw [hpp] at h
      cases h
    | ok o =>
      rw [hpp] at h
      cases o with
      | none => exact ih ds h d hd
      | some d0 =>
        cases hr : runPairs fetch sTs eTs rest with
        | error e0 =>
          rw [hr] at h
          cases h
        | ok ds0 =>
          rw [hr] at h
          obtain rfl := Except.ok.inj h
          rcases List.mem_cons.mp hd with rfl | hd2
          · obtain ⟨raw, ndf, -, -, rfl, -⟩ := processPair_ok_some hpp
            exact ⟨ndf, rfl⟩
          · exact ih ds0 hr d hd2

lemma getCol_filterWindow_pickup (ndf : DF) (s e : DT) :
    (filterWindow ndf s e).getCol "pickup_datetime" =
      (ndf.getCol "pickup_datetime").filter (inWindow s e) := by
  unfold filterWindow
  rw [DF.getCol_filterMask, maskList_map_self]

lemma getCol_concatCanonical (dfs : List DF) (c : String)
    (hc : c ∈ canonicalColumns) :
    (concatCanonical dfs).getCol c = dfs.flatMap (fun d => d.getCol c) :=
  getColList_mapNames canonicalColumns
    (fun n => dfs.flatMap (fun d => d.getCol n)) c hc

lemma materialize_ok_cases (fetch : FetchFn) (env : Env) {s e : DT} {df : DF}
    (h1 : env.startResult = some s) (h2 : env.endResult = some e)
    (h : materialize fetch env = .ok df) :
    df = emptyCanonicalDF ∨
      ∃ ds, runPairs fetch s e
          (mkPairs env.taxiTypes (generateMonthStarts s e)) = .ok ds ∧
        df = concatCanonical ds := by
  unfold materialize at h
  rw [h1, h2] at h
  simp only at h
  by_cases hm : (generateMonthStarts s e).isEmpty = true
  · rw [if_pos hm] at h
    exact Or.inl (Except.ok.inj h).symm
  · rw [if_neg hm] at h
    cases hr : runPairs fetch s e
        (mkPairs env.taxiTypes (generateMonthStarts s e)) with
    | error e0 =>
      rw [hr] at h
      cases h
    | ok ds =>
      simp only [hr] at h
      by_cases hds : ds.isEmpty = true
      · rw [if_pos hds] at h
        exact Or.inl (Except.ok.inj h).symm
      · rw [if_neg hds] at h
        exact Or.inr ⟨ds, rfl, (Except.ok.inj h).symm⟩

/--
Claim C2:  Error policy of the ingestion loop: any fetch failure for a
(fleet type, month) pair is caught and the pair is skipped, contributing
nothing to the output; a missing/unparseable date aborts the run with
`MalformedDateError`; and an error produced inside the loop — which can
only be an `UnrecognizedSchemaError` coming from the normalizer after a
successful fetch — propagates out of `materialize` unchanged.
-/
theorem claim2_error_policy (fetch : FetchFn) (env : Env) :
    (∀ (sTs eTs : DT) (tt : String) (m : DT) (u : Unit),
        fetch tt m.year m.month = .error u →
        processPair fetch sTs eTs tt m = .ok none)
    ∧ (∀ (sTs eTs : DT) (p : String × DT) (rest : List (String × DT)),
        processPair fetch sTs eTs p.1 p.2 = .ok none →
        runPairs fetch sTs eTs (p :: rest) = runPairs fetch sTs eTs rest)
    ∧ (env.startResult = none ∨ env.endResult = none →
        materialize fetch env = .error .malformedDate)
    ∧ (∀ (s e : DT) (err : PipeError),
        env.startResult = some s → env.endResult = some e →
        (generateMonthStarts s e).isEmpty = false →
        runPairs fetch s e
          (mkPairs env.taxiTypes (generateMonthStarts s e)) = .error err →
        materialize fetch env = .error err)
    ∧ (∀ (sTs eTs : DT) (tt : String) (m : DT) (err : PipeError),
        processPair fetch sTs eTs tt m = .error err →
        ∃ raw, fetch tt m.year m.month = .ok raw ∧
          normalizeColumns raw tt = .error err) := by
  refine ⟨?_, ?_, ?_, ?_, ?_⟩
  · intro sTs eTs tt m u hf
    unfold processPair
    rw [hf]
  · intro sTs eTs p rest hpp
    conv_lhs => rw [runPairs]
    rw [hpp]
  · intro hnone
    rcases hnone with hs | he
    · unfold materialize
      rw [hs]
    · cases hs : env.startResult with
      | none =>
        unfold materialize
        rw [hs]
      | some s =>
        unfold materialize
        rw [hs, he]
  · intro s e err h1 h2 hne hr
    unfold materialize
    rw [h1, h2]
    simp only
    rw [if_neg (by simp [hne]), hr]
  · intro sTs eTs tt m err h
    exact processPair_error h

/-- A fetch collaborator that always fails. -/
def fetchNone : FetchFn := fun _ _ _ => .error ()

/-- Witness for C2: a failing fetch for (yellow, 0002-01) is recovered
as a skip. -/
theorem claim2_witness :
    processPair fetchNone ⟨2, 1, 1, 0⟩ ⟨2, 2, 1, 0⟩ "yellow" ⟨2, 1, 1, 0⟩ =
      .ok none :=
  (claim2_error_policy fetchNone ⟨none, none, []⟩).1 ⟨2, 1, 1, 0⟩
    ⟨2, 2, 1, 0⟩ "yellow" ⟨2, 1, 1, 0⟩ () rfl

/--
Claim C4:  Every row of the final output table satisfies
`start ≤ pickup_datetime < end` with the original caller-supplied parsed
bounds (no month alignment, no midnight normalization), and the filter
applied to each normalized batch keeps exactly the rows whose
`pickup_datetime` satisfies that half-open condition.
-/
theorem claim4_window_filter (fetch : FetchFn) (env : Env) (s e : DT)
    (df : DF) (h1 : env.startResult = some s) (h2 : env.endResult = some e)
    (h : materialize fetch env = .ok df) :
    (∀ v ∈ df.getCol "pickup_datetime", inWindow s e v = true)
    ∧ (∀ ndf : DF, (filterWindow ndf s e).getCol "pickup_datetime" =
        (ndf.getCol "pickup_datetime").filter (inWindow s e)) := by
  refine ⟨?_, fun ndf => getCol_filterWindow_pickup ndf s e⟩
  intro v hv
  rcases materialize_ok_cases fetch env h1 h2 h with rfl | ⟨ds, hr, rfl⟩
  · have hempty : emptyCanonicalDF.getCol "pickup_datetime" = [] := rfl
    rw [hempty] at hv
    cases hv
  · rw [getCol_concatCanonical ds _ (by decide)] at hv
    obtain ⟨d0, hd0, hvd⟩ := List.mem_flatMap.mp hv
    obtain ⟨ndf, rfl⟩ := runPairs_ok_mem fetch s e _ ds hr d0 hd0
    rw [getCol_filterWindow_pickup] at hvd
    exact (List.mem_filter.mp hvd).2

/-- A raw batch with one row inside and one row outside the window
0002-01-01 .. 0002-02-01. -/
def dfW4 : DF :=
  ⟨[("pickup_datetime", [Val.ts ⟨2, 1, 10, 3⟩, Val.ts ⟨2, 3, 1, 0⟩]),
    ("dropoff_datetime", [Val.ts ⟨2, 1, 10, 9⟩, Val.ts ⟨2, 3, 1, 4⟩])],
   [0, 1]⟩

/-- A fetch collaborator that has data only for (yellow, 0002-01). -/
def fetchW4 : FetchFn := fun tt y m =>
  if tt == "yellow" && y == 2 && m == 1 then .ok dfW4 else .error ()

/-- The environment of the concrete run: window
0002-01-01 .. 0002-02-01, one fleet type. -/
def envW4 : Env := ⟨some ⟨2, 1, 1, 0⟩, some ⟨2, 2, 1, 0⟩, ["yellow"]⟩

/-- The output table of that run. -/
def dfOut4 : DF :=
  concatCanonical [filterWindow
    (normalizeOk dfW4 "yellow" "pickup_datetime" "dropoff_datetime")
    ⟨2, 1, 1, 0⟩ ⟨2, 2, 1, 0⟩]

set_option maxHeartbeats 1000000 in
/-- Witness for C4: in the concrete run only the in-window timestamp
survives, and it satisfies the window predicate. -/
theorem claim4_witness :
    inWindow ⟨2, 1, 1, 0⟩ ⟨2, 2, 1, 0⟩ (Val.ts ⟨2, 1, 10, 3⟩) = true := by
  have h := claim4_window_filter fetchW4 envW4 ⟨2, 1, 1, 0⟩ ⟨2, 2, 1, 0⟩
    dfOut4 rfl rfl rfl
  exact h.1 (Val.ts ⟨2, 1, 10, 3⟩) (by decide)

/--
Claim C8:  Output ordering: the loop enumerates (fleet type, month) pairs
fleet-type-major in caller order and month-minor in ascending planner
order; the surviving batches are concatenated in arrival order
(columnwise, each canonical column is the concatenation of the batch
columns); and the output row index is renumbered contiguously from zero.
-/
theorem claim8_output_order (fetch : FetchFn) (env : Env) (s e : DT)
    (df : DF) (h1 : env.startResult = some s) (h2 : env.endResult = some e)
    (h : materialize fetch env = .ok df) :
    df.idx = List.range df.nrows
    ∧ mkPairs env.taxiTypes (generateMonthStarts s e) =
        env.taxiTypes.flatMap
          (fun tt => (generateMonthStarts s e).map (fun m => (tt, m)))
    ∧ List.Pairwise DT.lt (generateMonthStarts s e)
    ∧ (∀ ds, runPairs fetch s e
          (mkPairs env.taxiTypes (generateMonthStarts s e)) = .ok ds →
        ds ≠ [] → (generateMonthStarts s e).isEmpty = false →
        ∀ c ∈ canonicalColumns,
          df.getCol c = ds.flatMap (fun d => d.getCol c)) := by
  refine ⟨?_, rfl, pairwise_generateMonthStarts s e, ?_⟩
  · rcases materialize_ok_cases fetch env h1 h2 h with rfl | ⟨ds, -, rfl⟩
    · rfl
    · show List.range ((ds.map DF.nrows).sum) =
        List.range (List.range ((ds.map DF.nrows).sum)).length
      rw [List.length_range]
  · intro ds hr hdne hme c hc
    have hmat : materialize fetch env = .ok (concatCanonical ds) := by
      unfold materialize
      rw [h1, h2]
      simp only
      rw [if_neg (by simp [hme])]
      simp only [hr]
      rw [if_neg (fun hh => hdne (List.isEmpty_iff.mp hh))]
    rw [h] at hmat
    obtain rfl := Except.ok.inj hmat
    exact getCol_concatCanonical ds c hc

set_option maxHeartbeats 1000000 in
/-- Witness for C8 on the concrete run of `fetchW4`/`envW4`: the output
index is the contiguous renumbering of its rows. -/
theorem claim8_witness : dfOut4.idx = List.range dfOut4.nrows :=
  (claim8_output_order fetchW4 envW4 ⟨2, 1, 1, 0⟩ ⟨2, 2, 1, 0⟩ dfOut4
    rfl rfl rfl).1

/--
Claim C9:  Whenever nothing survives — the planner produced no months, the
fleet-type list is empty, or every pair was skipped or filtered to
nothing — `materialize` returns (not raises) the empty table that still
carries the full canonical seven-column schema.
-/
theorem claim9_empty_schema (fetch : FetchFn) (env : Env) (s e : DT)
    (h1 : env.startResult = some s) (h2 : env.endResult = some e) :
    emptyCanonicalDF.colNames = canonicalColumns
    ∧ emptyCanonicalDF.nrows = 0
    ∧ (generateMonthStarts s e = [] →
        materialize fetch env = .ok emptyCanonicalDF)
    ∧ (env.taxiTypes = [] → materialize fetch env = .ok emptyCanonicalDF)
    ∧ (runPairs fetch s e
          (mkPairs env.taxiTypes (generateMonthStarts s e)) = .ok [] →
        materialize fetch env = .ok emptyCanonicalDF) := by
  refine ⟨by decide, rfl, ?_, ?_, ?_⟩
  · intro hm
    unfold materialize
    rw [h1, h2]
    simp only
    rw [if_pos (by simp [hm])]
  · intro ht
    unfold materialize
    rw [h1, h2]
    simp only
    by_cases hm : (generateMonthStarts s e).isEmpty = true
    · rw [if_pos hm]
    · rw [if_neg hm, ht]
      rfl
  · intro hr
    unfold materialize
    rw [h1, h2]
    simp only
    by_cases hm : (generateMonthStarts s e).isEmpty = true
    · rw [if_pos hm]
    · rw [if_neg hm, hr]
      rfl

/-- An environment whose window 0002-03-05 .. 0002-03-20 contains no
month boundary. -/
def envW9 : Env := ⟨some ⟨2, 3, 5, 0⟩, some ⟨2, 3, 20, 0⟩, ["yellow"]⟩

/-- Witness for C9: the no-months run returns the empty canonical
table. -/
theorem claim9_witness :
    materialize fetchNone envW9 = .ok emptyCanonicalDF :=
  (claim9_empty_schema fetchNone envW9 ⟨2, 3, 5, 0⟩ ⟨2, 3, 20, 0⟩ rfl
    rfl).2.2.1 (by decide)

end Bruin
